import Mathlib

/-!
Shallow embedding of the aesthetic_scoring label-curation engine
(src/03_label_images.py and src/05_predict_labels.py).

Conventions used throughout:
* a pandas DataFrame row is a `Row`; a missing cell (NaN) is `none`;
* the DataFrame is a `List Row` in positional (row) order;
* timestamps are integers (`int(time.time())`), the call time is passed
  explicitly as a `now` argument and advanced by the caller;
* image paths are taken relative to the corpus directory, so the source's
  `os.path.join(root_directory, uuid + ".jpg")` is embedded as
  `uuid ++ ".jpg"` (joining with a fixed directory prefix is injective and
  does not affect any ordering or membership statement);
* `np.argsort(kind=quicksort)` is embedded as a stable insertion sort,
  which is exact for the short arrays appearing in every concrete input
  used below (numpy switches to insertion sort for short arrays);
* persistence (`DataFrame.to_csv`) is embedded as the list of file-system
  events it performs, so that the shape of a save (direct write versus
  write-to-temporary-then-rename) is statable.
-/

/-- One row of the label database. Columns as in `03_label_images.py` /
`05_predict_labels.py`: `uuid`, `label`, `predicted_label`, `timestamp`;
`none` models a NaN cell. -/
structure Row where
  uuid : String
  label : Option ℚ := none
  predicted_label : Option ℚ := none
  timestamp : Option ℤ := none
deriving DecidableEq, Repr

/-- Embeds `database.loc[database["uuid"] == uuid]` followed by taking the
first hit: the first row whose `uuid` column matches. -/
def firstRow (uuid : String) (db : List Row) : Option Row :=
  db.find? (fun r => r.uuid == uuid)

/-- Embeds `load(uuid, database)` of `03_label_images.py`: `none` when no
row matches (Python `None`), otherwise the (possibly NaN) `label` cell of
the first matching row. -/
def load (uuid : String) (db : List Row) : Option (Option ℚ) :=
  (firstRow uuid db).map (fun r => r.label)

/-- Embeds the `index_to_update = database.loc[...].index[0]` / row-update
pattern: rewrite the first row whose uuid matches; `none` when no row
matches (in which case the Python code raises `IndexError`). -/
def updateFirstRow (uuid : String) (f : Row → Row) : List Row → Option (List Row)
  | [] => none
  | r :: rs =>
    if r.uuid == uuid then some (f r :: rs)
    else (updateFirstRow uuid f rs).map (fun rs2 => r :: rs2)

/-- Embeds `relabel_image(uuid, label, database)` of `03_label_images.py`
(`now` is `int(time.time())` at the call).  When no row matches, a new row
with only `uuid`, `label` and `timestamp` is appended (`pd.concat`); its
`predicted_label` cell is NaN.  Otherwise the first matching row's `label`
and `timestamp` cells are overwritten; `predicted_label` is not touched. -/
def relabel_image (uuid : String) (label : ℚ) (now : ℤ) (db : List Row) : List Row :=
  match updateFirstRow uuid
      (fun r => { r with label := some label, timestamp := some now }) db with
  | some db2 => db2
  | none => db ++ [{ uuid := uuid, label := some label, timestamp := some now }]

/-- Embeds `fix_database(database)` of `03_label_images.py`: for every row
whose `label` cell is present (not NaN — the `!= ""` and `is not None`
conjuncts are vacuous for a float column), copy it into `predicted_label`. -/
def fix_database (db : List Row) : List Row :=
  db.map (fun r =>
    match r.label with
    | some v => { r with predicted_label := some v }
    | none => r)

/-- Value of the `predicted_label` cell with NaN read as 0; used only as a
sort key under hypotheses making every cell present. -/
def predQ (r : Row) : ℚ := r.predicted_label.getD 0

/-- Stable insertion of `a` into `l`: `a` goes after every `b` with
`le b a`.  Building block of the embedding of `np.argsort`. -/
def insertBy (le : α → α → Bool) (a : α) : List α → List α
  | [] => [a]
  | b :: l => if le b a then b :: insertBy le a l else a :: b :: l

/-- Stable insertion sort (elements inserted left to right). -/
def sortBy (le : α → α → Bool) (l : List α) : List α :=
  l.foldl (fun acc a => insertBy le a acc) []

/-- Embeds `np.argsort` on a float array without NaNs: the list of
positions, sorted stably by the values they index. -/
def npArgsort (vals : List ℚ) : List Nat :=
  sortBy (fun i j => decide (vals.getD i 0 ≤ vals.getD j 0)) (List.range vals.length)

/-- Embeds the masked assignment in `pandas.Series.argsort`:
`result = np.full(n, -1); result[notmask] = np.argsort(values[notmask])`.
Positions holding NaN receive `-1`; the other positions receive, in order,
the entries of `ord` (which are indices into the NaN-compressed array). -/
def scatterArgsort : List (Option ℚ) → List Nat → List Int
  | [], _ => []
  | none :: rest, ord => -1 :: scatterArgsort rest ord
  | some _ :: rest, [] => scatterArgsort rest []
  | some _ :: rest, o :: os => (o : Int) :: scatterArgsort rest os

/-- Embeds `pandas.Series.argsort` on a float series: `-1` at NaN
positions, and `np.argsort` of the NaN-compressed values scattered over
the non-NaN positions. -/
def seriesArgsort (vals : List (Option ℚ)) : List Int :=
  scatterArgsort vals (npArgsort (vals.filterMap id))

/-- Embeds numpy fancy indexing `xs[i]` with a possibly negative index
(`-1` selects the last element), as used by
`database["uuid"].values[sorted_indices]`. -/
def npTake (xs : List String) (i : Int) : String :=
  if 0 ≤ i then xs.getD i.toNat ""
  else xs.getD (xs.length - (-i).toNat) ""

/-- Ascending sort of a float array, used by the median computation. -/
def sortedVals (vals : List ℚ) : List ℚ :=
  sortBy (fun a b => decide (a ≤ b)) vals

/-- Embeds `pandas.Series.median()` (NaNs already dropped by the caller):
`none` on an empty list, the middle element of the sorted list for odd
length, the mean of the two middle elements for even length. -/
def pandasMedian (vals : List ℚ) : Option ℚ :=
  if (sortedVals vals).length = 0 then none
  else if (sortedVals vals).length % 2 = 1 then
    some ((sortedVals vals).getD ((sortedVals vals).length / 2) 0)
  else
    some (((sortedVals vals).getD ((sortedVals vals).length / 2 - 1) 0
      + (sortedVals vals).getD ((sortedVals vals).length / 2) 0) / 2)

/-- The four radio-button choices of `create_sorting_window`. -/
inductive SortOption
  | uuid
  | predictedBadFirst
  | predictedGoodFirst
  | middle
deriving DecidableEq, Repr

/-- Embeds `os.path.join(root_directory, uuid + ".jpg")` relative to the
corpus directory. -/
def imagePath (uuid : String) : String := uuid ++ ".jpg"

/-- Embeds `re_order_images(image_files, database)` of
`03_label_images.py`, with the interactive sorting-window choice made an
explicit argument.  The `uuid` option re-globs the (sorted) corpus
listing, i.e. returns `image_files` itself; the other options argsort the
`predicted_label` column (for `middle`, its absolute distance from the
median) and gather the database's `uuid` column through the resulting
indices. -/
def re_order_images (image_files : List String) (db : List Row) (opt : SortOption) :
    List String :=
  match opt with
  | .uuid => image_files
  | _ =>
    let sorted_indices : List Int :=
      match opt with
      | .predictedGoodFirst => (seriesArgsort (db.map (fun r => r.predicted_label))).reverse
      | .middle =>
        let med := pandasMedian ((db.map (fun r => r.predicted_label)).filterMap id)
        let dists := db.map (fun r =>
          match med, r.predicted_label with
          | some m, some v => some |v - m|
          | _, _ => none)
        seriesArgsort dists
      | _ => seriesArgsort (db.map (fun r => r.predicted_label))
    let uuidvals := db.map (fun r => r.uuid)
    (sorted_indices.map (npTake uuidvals)).map imagePath

/-- The reviewer inputs recognized by the `label_dataset` loop of
`03_label_images.py`: a digit key, `q`/escape, left arrow, right arrow. -/
inductive Key
  | digit (d : Fin 10)
  | quit
  | leftArrow
  | rightArrow
deriving DecidableEq, Repr

/-- Embeds `os.path.basename(image_file).split(".")[0]` for a path
relative to the corpus directory: the prefix before the first dot. -/
def stripExt (file : String) : String :=
  String.mk (file.toList.takeWhile (fun c => c != '.'))

/-- Embeds the skip test of `label_dataset`:
`(label is not None) and (not np.isnan(label))` on the result of `load`. -/
def labelPresent (x : Option (Option ℚ)) : Bool :=
  match x with
  | some (some _) => true
  | _ => false

/-- Observable outcome of a run of the `label_dataset` review loop:
the uuids presented (shown via `cv2.imshow`), the final database,
`some i` in `oobIndex` when the loop aborted with `IndexError` accessing
`image_files[i]`, and `some uuid` in `lookupError` when it aborted with
`IndexError` reading the `predicted_label` cell of an id that has no
database row (the `.values[0]` of an empty selection on the display
path, before `cv2.imshow`). -/
structure RunResult where
  presented : List String
  finalDb : List Row
  oobIndex : Option Nat
  lookupError : Option String
deriving DecidableEq, Repr

/-- Embeds the `while True` review loop of `label_dataset` in
`03_label_images.py`.  One recursive call per loop iteration (`fuel`
bounds the number of iterations; the runs below never exhaust it).  Per
iteration: access `image_files[current_index]` (recording an `IndexError`
when out of bounds), skip labeled images while `skip_labeled_files` is
still set (incrementing the index without wrapping), otherwise clear
`skip_labeled_files` and display the image: with a present label the
label itself is drawn, otherwise the code reads
`database.loc[database["uuid"] == uuid, "predicted_label"].values[0]`,
which raises `IndexError` when the id has no database row — before
`cv2.imshow`, so nothing is presented.  A present label implies a
matching row exists, so that whole display step is a single match on the
first matching row here (its NaN `predicted_label` is displayable; the
`KeyError` of a table lacking the `predicted_label` column altogether is
outside this embedding, whose rows always carry the cell).  When the
image was displayed, one key is consumed: a digit relabels and advances,
`q` breaks, the arrows move the index, and after any key the index is
reduced modulo `len(image_files)`.  An exhausted key list models the
reviewer walking away while `cv2.waitKey` blocks.  The probabilistic
`create_backup` call and the `to_csv` save touch only the file system,
not the loop state, and are not recorded here. -/
def sessionRun (fuel : Nat) (image_files : List String) (db : List Row)
    (idx : Nat) (skip : Bool) (keys : List Key) (now : ℤ) : RunResult :=
  match fuel with
  | 0 => ⟨[], db, none, none⟩
  | fuel + 1 =>
    match image_files.get? idx with
    | none => ⟨[], db, some idx, none⟩
    | some file =>
      let uuid := stripExt file
      if labelPresent (load uuid db) && skip then
        sessionRun fuel image_files db (idx + 1) skip keys now
      else
        match firstRow uuid db with
        | none => ⟨[], db, none, some uuid⟩
        | some _ =>
          match keys with
          | [] => ⟨[uuid], db, none, none⟩
          | k :: ks =>
            let n := image_files.length
            match k with
            | .digit d =>
              let db2 := relabel_image uuid ((d.val : ℚ) / 10) now db
              let r := sessionRun fuel image_files db2 ((idx + 1) % n) false ks (now + 1)
              ⟨uuid :: r.presented, r.finalDb, r.oobIndex, r.lookupError⟩
            | .quit => ⟨[uuid], db, none, none⟩
            | .leftArrow =>
              let r := sessionRun fuel image_files db ((idx + n - 1) % n) false ks now
              ⟨uuid :: r.presented, r.finalDb, r.oobIndex, r.lookupError⟩
            | .rightArrow =>
              let r := sessionRun fuel image_files db ((idx + 1) % n) false ks now
              ⟨uuid :: r.presented, r.finalDb, r.oobIndex, r.lookupError⟩

/-- File-system events a persistence routine can perform: a full write of
serialized rows at a path, or a rename. -/
inductive FsEvent
  | write (path : String) (contents : List Row)
  | rename (src dst : String)
deriving DecidableEq, Repr

/-- Embeds `database.to_csv(label_file, index=False)` as performed at
`03_label_images.py` line 231 and `05_predict_labels.py` lines 99/104: a
single direct write of the whole serialized table at the given path. -/
def to_csv (path : String) (db : List Row) : List FsEvent :=
  [FsEvent.write path db]

/-- Following the spec's words (section 4.1 `save`): an atomic save first
writes the serialized table at a temporary location distinct from the
target and only then renames it onto the target.  Stated as a predicate on
event traces, to be compared with the trace `to_csv` actually performs. -/
def AtomicSaveTrace (path : String) (db : List Row) (tr : List FsEvent) : Prop :=
  ∃ tmp, tmp ≠ path ∧ tr = [FsEvent.write tmp db, FsEvent.rename tmp path]

/-- Embeds `predict(features, paths, uuids, database, row)` of
`05_predict_labels.py`, with the external neural network abstracted into
`score` and the single `row` argument reduced to the emptiness test the
function performs on it (`row is None or len(row) == 0`).  Note the
source tests that one `row` — the row of the uuid that filled the batch —
for every uuid of the batch.  When it was empty, every uuid gets a fresh
appended row (`label` NaN); otherwise every uuid's first matching row is
updated in place, and a uuid with no matching row raises `IndexError`
(`none` here).  The `shutil.copy` of sample images touches only the file
system and is not recorded. -/
def predict (score : String → ℚ) (uuids : List String) (rowEmpty : Bool)
    (now : ℤ) (db : List Row) : Option (List Row) :=
  match uuids with
  | [] => some db
  | u :: rest =>
    if rowEmpty then
      predict score rest rowEmpty now
        (db ++ [{ uuid := u, predicted_label := some (score u), timestamp := some now }])
    else
      match updateFirstRow u
          (fun r => { r with predicted_label := some (score u), timestamp := some now }) db with
      | none => none
      | some db2 => predict score rest rowEmpty now db2

/-- Embeds the emptiness/label test of the module-level loop of
`05_predict_labels.py` (`row["label"].values[0] is not None and not
np.isnan(...)` under `try`/`except`): `true` exactly when a matching row
exists and its `label` cell is present. -/
def rowIsLabeled (row : Option Row) : Bool :=
  match row with
  | some r => r.label.isSome
  | none => false

/-- Embeds the module-level batch loop of `05_predict_labels.py`: walk the
scanned image uuids, skip those whose first database row already has a
human label, accumulate the rest into a batch, and on reaching
`batch_size` call `predict`, passing along the emptiness of the row of
the uuid that filled the batch.  A final partial batch is left
unpredicted, as in the source.  Periodic `to_csv` flushes touch only the
file system and are not recorded. -/
def predictLoop (score : String → ℚ) (batchSize : Nat) (now : ℤ) :
    List String → List String → List Row → Option (List Row)
  | [], _batch, db => some db
  | u :: rest, batch, db =>
    let row := firstRow u db
    if rowIsLabeled row then predictLoop score batchSize now rest batch db
    else
      let batch2 := batch ++ [u]
      if batch2.length == batchSize then
        match predict score batch2 row.isNone now db with
        | none => none
        | some db2 => predictLoop score batchSize now rest [] db2
      else predictLoop score batchSize now rest batch2 db

/-- The `batch_size = 16` constant of `05_predict_labels.py`. -/
def batch_size : Nat := 16

/-- Median of the `predicted_label` column read back as a plain rational
(0 when the store is empty); used in the statements about the `middle`
sort option. -/
def medianVal (db : List Row) : ℚ :=
  (pandasMedian (db.map predQ)).getD 0

/-- Placeholder row used as the (never reached) default of positional
lookups in the ordering lemmas; its `uuid` is the empty string and its
cells are NaN, matching the defaults of the gathered columns. -/
def emptyRow : Row := ⟨"", none, none, none⟩

/-- Positional frame relation between two stores: every row of the first
store is still at its position in the second with the same `label` cell,
and, when that `label` cell is present, with the same `predicted_label`
cell as well. -/
def FrameStep (db db2 : List Row) : Prop :=
  ∀ i r, db.get? i = some r →
    ∃ r2, db2.get? i = some r2 ∧ r2.label = r.label ∧
      (r.label.isSome = true → r2.predicted_label = r.predicted_label)

/-- Every database row matching `u` (there is at most one relevant: the
first) has no human label; the property the batch loop guarantees for
every uuid it batches. -/
def FirstUnlabeled (u : String) (db : List Row) : Prop :=
  ∀ r, firstRow u db = some r → r.label = none

theorem updateFirstRow_none_iff (u : String) (f : Row → Row) (db : List Row) :
    updateFirstRow u f db = none ↔ firstRow u db = none := by
  induction db with
  | nil => simp [updateFirstRow, firstRow]
  | cons r rs ih =>
    simp only [updateFirstRow, firstRow, List.find?] at *
    by_cases h : (r.uuid == u) = true
    · simp [h]
    · simp [h, Option.map_eq_none', ih]

theorem relabel_of_update_some (u : String) (lab : ℚ) (now : ℤ) (db db2 : List Row)
    (hu : updateFirstRow u
      (fun r => { r with label := some lab, timestamp := some now }) db = some db2) :
    relabel_image u lab now db = db2 := by
  unfold relabel_image
  rw [hu]

theorem relabel_of_update_none (u : String) (lab : ℚ) (now : ℤ) (db : List Row)
    (hu : updateFirstRow u
      (fun r => { r with label := some lab, timestamp := some now }) db = none) :
    relabel_image u lab now db
      = db ++ [{ uuid := u, label := some lab, timestamp := some now }] := by
  unfold relabel_image
  rw [hu]

/-- C9: `fix_database` (the spec's `backfill_from_labels`) is idempotent:
applying it twice to any store yields exactly the store obtained by
applying it once. -/
theorem C9_fix_database_idempotent (db : List Row) :
    fix_database (fix_database db) = fix_database db := by
  induction db with
  | nil => rfl
  | cons r rs ih =>
    obtain ⟨u, l, p, t⟩ := r
    cases l with
    | none => simpa [fix_database] using ih
    | some v => simpa [fix_database] using ih

/-- C1 counterexample: the back-fill invariant does not hold in every
reachable store state.  Starting from the empty store (what `load` yields
when no label file exists yet), one `relabel_image` call produces a store
holding a record whose `label` is present while `predicted_label` differs
from it (it is NaN), because `relabel_image` never writes
`predicted_label`. -/
theorem C1_relabel_breaks_invariant :
    ∃ r ∈ relabel_image "a" (1/2) 100 ([] : List Row),
      r.label.isSome = true ∧ r.predicted_label ≠ r.label := by decide

/-- C1 amended: `fix_database` establishes the back-fill invariant — in
the store it returns, every record whose `label` is present has
`predicted_label` equal to that label.  (`relabel_image` does not
preserve the invariant; it is re-established only by the `fix_database`
pass at session start.) -/
theorem C1_fix_database_invariant (db : List Row) :
    ∀ r ∈ fix_database db, r.label.isSome = true → r.predicted_label = r.label := by
  intro r hr hl
  unfold fix_database at hr
  obtain ⟨r0, hr0, heq⟩ := List.mem_map.mp hr
  cases h : r0.label with
  | none =>
    rw [h] at heq
    subst heq
    simp [h] at hl
  | some v =>
    rw [h] at heq
    subst heq
    simp [h]

theorem C1_fix_database_invariant_witness :
    (⟨"a", some (1/2), some (1/2), none⟩ : Row).predicted_label
      = (⟨"a", some (1/2), some (1/2), none⟩ : Row).label :=
  C1_fix_database_invariant
    [⟨"a", some (1/2), some 0, none⟩]
    ⟨"a", some (1/2), some (1/2), none⟩
    (of_decide_eq_true (by with_unfolding_all rfl)) (by decide)

/-- C2 counterexample: `relabel_image` on an unknown id does not give the
new record a `predicted_label` equal to the given label — the new record's
`predicted_label` is NaN. -/
theorem C2_relabel_no_predicted_backfill :
    relabel_image "a" (1/2) 100 ([] : List Row)
        = [⟨"a", some (1/2), none, some 100⟩]
    ∧ ¬ ∃ r ∈ relabel_image "a" (1/2) 100 ([] : List Row),
        r.predicted_label = some (1/2) :=
  of_decide_eq_true (by with_unfolding_all rfl)

/-- C2 amended: `relabel_image` writes the `label` field and refreshes the
record's timestamp to the call time, leaving `predicted_label` unchanged
(it does not back-fill it); on an unknown id it appends a new record with
the given label, `timestamp` equal to the call time and no
`predicted_label`.  All other records are untouched. -/
theorem C2_relabel_fields (u : String) (lab : ℚ) (now : ℤ) (db : List Row) :
    (firstRow u db = none →
      relabel_image u lab now db
        = db ++ [{ uuid := u, label := some lab, timestamp := some now }])
    ∧ ∀ r0, firstRow u db = some r0 →
        ∃ i, db.get? i = some r0 ∧
          (relabel_image u lab now db).get? i
            = some { r0 with label := some lab, timestamp := some now } ∧
          ∀ j, j ≠ i → (relabel_image u lab now db).get? j = db.get? j := by
  induction db with
  | nil =>
    constructor
    · intro _
      rfl
    · intro r0 h0
      simp [firstRow] at h0
  | cons r rs ih =>
    by_cases h : (r.uuid == u) = true
    · have hupd : updateFirstRow u
          (fun x => { x with label := some lab, timestamp := some now }) (r :: rs)
          = some ({ r with label := some lab, timestamp := some now } :: rs) := by
        simp [updateFirstRow, h]
      have hrel := relabel_of_update_some u lab now (r :: rs) _ hupd
      have hfr : firstRow u (r :: rs) = some r := by
        simp [firstRow, List.find?, h]
      constructor
      · intro hnone
        rw [hfr] at hnone
        exact absurd hnone (by simp)
      · intro r0 h0
        rw [hfr] at h0
        obtain rfl : r = r0 := by injection h0
        refine ⟨0, rfl, ?_, ?_⟩
        · rw [hrel]
          rfl
        · intro j hj
          obtain ⟨j2, rfl⟩ := Nat.exists_eq_succ_of_ne_zero hj
          rw [hrel]
          rfl
    · have hfr : firstRow u (r :: rs) = firstRow u rs := by
        simp [firstRow, List.find?, h]
      cases hu : updateFirstRow u
          (fun x => { x with label := some lab, timestamp := some now }) rs with
      | none =>
        have hupd : updateFirstRow u
            (fun x => { x with label := some lab, timestamp := some now }) (r :: rs)
            = none := by
          simp [updateFirstRow, h, hu]
        have hrel := relabel_of_update_none u lab now (r :: rs) hupd
        constructor
        · intro _
          rw [hrel]
        · intro r0 h0
          rw [hfr] at h0
          have hnone : firstRow u rs = none :=
            (updateFirstRow_none_iff u _ rs).mp hu
          rw [hnone] at h0
          exact absurd h0 (by simp)
      | some rs2 =>
        have hupd : updateFirstRow u
            (fun x => { x with label := some lab, timestamp := some now }) (r :: rs)
            = some (r :: rs2) := by
          simp [updateFirstRow, h, hu]
        have hrel := relabel_of_update_some u lab now (r :: rs) _ hupd
        have hrel2 := relabel_of_update_some u lab now rs _ hu
        constructor
        · intro hnone
          rw [hfr] at hnone
          have := (updateFirstRow_none_iff u
            (fun x => { x with label := some lab, timestamp := some now }) rs).mpr hnone
          rw [this] at hu
          exact absurd hu (by simp)
        · intro r0 h0
          rw [hfr] at h0
          obtain ⟨i, hget, hset, hrest⟩ := ih.2 r0 h0
          refine ⟨i + 1, by simpa using hget, ?_, ?_⟩
          · rw [hrel]
            simpa [hrel2] using hset
          · intro j hj
            cases j with
            | zero =>
              rw [hrel]
              rfl
            | succ j2 =>
              have hj2 : j2 ≠ i := by omega
              rw [hrel]
              simpa [hrel2] using hrest j2 hj2

theorem C2_relabel_fields_witness :
    ∃ i, ([⟨"b", none, none, none⟩,
          ⟨"a", some (1/4), some (3/4), some 5⟩] : List Row).get? i
        = some ⟨"a", some (1/4), some (3/4), some 5⟩
      ∧ (relabel_image "a" (1/2) 100
          [⟨"b", none, none, none⟩, ⟨"a", some (1/4), some (3/4), some 5⟩]).get? i
        = some ⟨"a", some (1/2), some (3/4), some 100⟩
      ∧ ∀ j, j ≠ i →
          (relabel_image "a" (1/2) 100
            [⟨"b", none, none, none⟩, ⟨"a", some (1/4), some (3/4), some 5⟩]).get? j
          = ([⟨"b", none, none, none⟩,
              ⟨"a", some (1/4), some (3/4), some 5⟩] : List Row).get? j :=
  (C2_relabel_fields "a" (1/2) 100
      [⟨"b", none, none, none⟩, ⟨"a", some (1/4), some (3/4), some 5⟩]).2
    ⟨"a", some (1/4), some (3/4), some 5⟩
    (of_decide_eq_true (by with_unfolding_all rfl))

/-- C3 counterexample: the store persistence performed by the code is not
of the write-to-temporary-then-rename shape at a concrete path and store —
the trace `to_csv` performs has a single event, while an atomic save trace
has two. -/
theorem C3_to_csv_not_atomic_at_input :
    ¬ AtomicSaveTrace "dataset.csv" [⟨"a", some (1/2), none, none⟩]
      (to_csv "dataset.csv" [⟨"a", some (1/2), none, none⟩]) := by
  rintro ⟨tmp, hne, htr⟩
  simp [to_csv] at htr

/-- C3 amended: every persistence of the store (both the per-keypress save
of `label_dataset` and the saves of the prediction pass) is a single
direct write of the full serialized table at the primary path itself; no
temporary location and no rename is involved, so the write-then-rename
atomicity the spec requires is absent. -/
theorem C3_save_single_direct_write (path : String) (db : List Row) :
    to_csv path db = [FsEvent.write path db]
    ∧ ¬ AtomicSaveTrace path db (to_csv path db) := by
  refine ⟨rfl, ?_⟩
  rintro ⟨tmp, hne, htr⟩
  simp [to_csv] at htr

/-- C4: at a concrete failing input the prediction batch loop inserts a
second row for an id that already has a row.  The store starts with a
single (unlabeled) row for `"a"`; the scanned files are `"a"` plus 15 new
ids, so the 16-element batch is filled by a new id whose database row is
empty.  `predict` tests only that last row's emptiness, takes the
append branch for every id of the batch, and `"a"` ends up with two rows. -/
theorem C4_duplicate_row_for_existing_id :
    (predictLoop (fun _ => 7/10) batch_size 50
        ["a", "b01", "b02", "b03", "b04", "b05", "b06", "b07", "b08", "b09",
         "b10", "b11", "b12", "b13", "b14", "b15"]
        [] [⟨"a", none, some (3/10), some 5⟩]).map
      (List.countP (fun r => r.uuid == "a")) = some 2 :=
  of_decide_eq_true (by with_unfolding_all rfl)

/-- C7 counterexample: skipping of already-labeled images does not
re-apply at every step.  With `"a"` labeled from the start and skipping
enabled, `"a"` is skipped before the first presentation, but after `"b"`
is presented (clearing `skip_labeled_files`) a single right-arrow wraps
back to `"a"` and presents it, label and all. -/
theorem C7_labeled_id_presented_later :
    (sessionRun 10 ["a.jpg", "b.jpg"]
        [⟨"a", some (1/2), some (1/2), some 0⟩, ⟨"b", none, none, none⟩]
        0 true [Key.rightArrow] 0).presented = ["b", "a"]
    ∧ labelPresent (load "a"
        [⟨"a", some (1/2), some (1/2), some 0⟩, ⟨"b", none, none, none⟩]) = true :=
  of_decide_eq_true (by with_unfolding_all rfl)

/-- C7 amended: "skip already labeled" applies only up to the first
presentation.  The loop clears `skip_labeled_files` when it first
presents an image, and from then on a visited in-bounds id is never
skipped for carrying a label: when the flag is off, an id that has a
database row — in particular every labeled id — is the next id
presented, and an id with no row at all crashes the session in the
predicted-label lookup of the display path (before `cv2.imshow`), which
is not a skip either.  In the concrete session of the counterexample the
labeled id `"a"` is accordingly presented again on its second visit. -/
theorem C7_skip_only_before_first_presentation :
    (∀ fuel files db idx keys now file r,
        files.get? idx = some file →
        firstRow (stripExt file) db = some r →
          ((sessionRun (fuel + 1) files db idx false keys now).presented).head?
            = some (stripExt file))
    ∧ (∀ fuel files db idx keys now file,
        files.get? idx = some file →
        firstRow (stripExt file) db = none →
          sessionRun (fuel + 1) files db idx false keys now
            = ⟨[], db, none, some (stripExt file)⟩)
    ∧ (sessionRun 10 ["a.jpg", "b.jpg"]
        [⟨"a", some (1/2), some (1/2), some 0⟩, ⟨"b", none, none, none⟩]
        0 true [Key.rightArrow] 0).presented = ["b", "a"] := by
  refine ⟨?_, ?_, of_decide_eq_true (by with_unfolding_all rfl)⟩
  · intro fuel files db idx keys now file r hfile hrow
    simp only [sessionRun, hfile, Bool.and_false, if_false, hrow]
    cases keys with
    | nil => rfl
    | cons k ks => cases k <;> rfl
  · intro fuel files db idx keys now file hfile hrow
    simp only [sessionRun, hfile, Bool.and_false, hrow]
    rfl

theorem C7_skip_only_before_first_presentation_witness :
    ((sessionRun 1 ["x.jpg"] [⟨"x", some (1/2), none, none⟩] 0 false [] 0).presented).head?
      = some "x" :=
  C7_skip_only_before_first_presentation.1 0 ["x.jpg"]
    [⟨"x", some (1/2), none, none⟩] 0 [] 0 "x.jpg"
    ⟨"x", some (1/2), none, none⟩ rfl
    (of_decide_eq_true (by with_unfolding_all rfl))

theorem sessionRun_skips_to_oob (files : List String) (db : List Row)
    (keys : List Key) (now : ℤ)
    (hall : ∀ f ∈ files, labelPresent (load (stripExt f) db) = true) :
    ∀ fuel j, files.length - j < fuel → j ≤ files.length →
      (sessionRun fuel files db j true keys now).oobIndex = some files.length := by
  intro fuel
  induction fuel with
  | zero =>
    intro j h1 h2
    omega
  | succ fuel ih =>
    intro j h1 h2
    by_cases hj : j = files.length
    · subst hj
      have hnone : files.get? files.length = none := by
        simp [List.get?_eq_none]
      simp [sessionRun, hnone]
    · have hlt : j < files.length := by omega
      have hf : files.get? j = some (files.get ⟨j, hlt⟩) := List.get?_eq_get hlt
      have hmem : files.get ⟨j, hlt⟩ ∈ files := files.get_mem _ _
      have hlab := hall _ hmem
      simp only [sessionRun, hf, hlab, Bool.and_self, if_true]
      exact ih (j + 1) (by omega) (by omega)

/-- C10: when skipping is enabled and every planned id already has a
present label, the initial skip loop increments the index past the whole
sequence without ever wrapping (the modulo is applied only after a
key-press), so the loop's next access of `image_files` uses an index
equal to the sequence length — out of bounds, the recorded
`IndexError`. -/
theorem C10_all_labeled_skip_overruns (files : List String) (db : List Row)
    (keys : List Key) (now : ℤ) (fuel : Nat)
    (_hne : files ≠ []) (hfuel : files.length < fuel)
    (hall : ∀ f ∈ files, labelPresent (load (stripExt f) db) = true) :
    (sessionRun fuel files db 0 true keys now).oobIndex = some files.length :=
  sessionRun_skips_to_oob files db keys now hall fuel 0 (by omega) (by omega)

theorem C10_all_labeled_skip_overruns_witness :
    (sessionRun 2 ["a.jpg"] [⟨"a", some (1/2), none, none⟩] 0 true [] 0).oobIndex
      = some 1 :=
  C10_all_labeled_skip_overruns ["a.jpg"] [⟨"a", some (1/2), none, none⟩] [] 0 2
    (by decide) (by decide) (of_decide_eq_true (by with_unfolding_all rfl))

theorem insertBy_length (le : α → α → Bool) (a : α) :
    ∀ l : List α, (insertBy le a l).length = l.length + 1 := by
  intro l
  induction l with
  | nil => rfl
  | cons b bs ih =>
    simp only [insertBy]
    by_cases h : le b a = true
    · simp [h, ih]
    · simp [h]

theorem sortBy_go_length (le : α → α → Bool) :
    ∀ (l acc : List α),
      (List.foldl (fun s x => insertBy le x s) acc l).length = acc.length + l.length := by
  intro l
  induction l with
  | nil => intro acc; simp
  | cons a as ih =>
    intro acc
    simp only [List.foldl_cons]
    rw [ih (insertBy le a acc), insertBy_length]
    simp only [List.length_cons]
    omega

theorem sortBy_length (le : α → α → Bool) (l : List α) :
    (sortBy le l).length = l.length := by
  unfold sortBy
  rw [sortBy_go_length]
  simp

theorem mem_insertBy (le : α → α → Bool) (a x : α) :
    ∀ l : List α, x ∈ insertBy le a l ↔ x = a ∨ x ∈ l := by
  intro l
  induction l with
  | nil => simp [insertBy]
  | cons b bs ih =>
    simp only [insertBy]
    by_cases h : le b a = true
    · simp only [h, if_true, List.mem_cons, ih]
      tauto
    · simp [h]

theorem insertBy_map (f : α → β) (la : α → α → Bool) (lb : β → β → Bool)
    (P : α → Prop) (hc : ∀ a b, P a → P b → la a b = lb (f a) (f b))
    (a : α) (ha : P a) :
    ∀ l : List α, (∀ x ∈ l, P x) →
      (insertBy la a l).map f = insertBy lb (f a) (l.map f) := by
  intro l
  induction l with
  | nil => intro _; rfl
  | cons b bs ih =>
    intro hl
    have hb : P b := hl b (by simp)
    simp only [insertBy, List.map_cons]
    rw [hc b a hb ha]
    by_cases hlb : lb (f b) (f a) = true
    · simp [hlb, ih (fun x hx => hl x (by simp [hx]))]
    · simp [hlb]

theorem sortBy_map_go (f : α → β) (la : α → α → Bool) (lb : β → β → Bool)
    (P : α → Prop) (hc : ∀ a b, P a → P b → la a b = lb (f a) (f b)) :
    ∀ (l acc : List α), (∀ x ∈ l, P x) → (∀ x ∈ acc, P x) →
      (List.foldl (fun s x => insertBy la x s) acc l).map f
        = List.foldl (fun s x => insertBy lb x s) (acc.map f) (l.map f) := by
  intro l
  induction l with
  | nil =>
    intro acc _ _
    rfl
  | cons a as ih =>
    intro acc hl hacc
    have ha : P a := hl a (by simp)
    simp only [List.foldl_cons, List.map_cons]
    rw [← insertBy_map f la lb P hc a ha acc hacc]
    exact ih (insertBy la a acc) (fun x hx => hl x (by simp [hx]))
      (fun x hx => ((mem_insertBy la a x acc).mp hx).elim
        (fun he => he ▸ ha) (fun hm => hacc x hm))

theorem sortBy_map (f : α → β) (la : α → α → Bool) (lb : β → β → Bool)
    (P : α → Prop) (hc : ∀ a b, P a → P b → la a b = lb (f a) (f b))
    (l : List α) (hl : ∀ x ∈ l, P x) :
    (sortBy la l).map f = sortBy lb (l.map f) :=
  sortBy_map_go f la lb P hc l [] hl (by simp)

theorem scatterArgsort_all_some :
    ∀ (vals : List (Option ℚ)) (ord : List Nat),
      (∀ v ∈ vals, v.isSome = true) → vals.length = ord.length →
      scatterArgsort vals ord = ord.map Int.ofNat := by
  intro vals
  induction vals with
  | nil =>
    intro ord _ hlen
    cases ord with
    | nil => rfl
    | cons o os => simp at hlen
  | cons v vs ih =>
    intro ord hall hlen
    cases v with
    | none => simpa using hall none (by simp)
    | some x =>
      cases ord with
      | nil => simp at hlen
      | cons o os =>
        simp only [scatterArgsort, List.map_cons, List.cons.injEq]
        exact ⟨rfl, ih os (fun w hw => hall w (by simp [hw])) (by simpa using hlen)⟩

theorem filterMap_pred_all_some (db : List Row)
    (h : ∀ r ∈ db, r.predicted_label.isSome = true) :
    (db.map (fun r => r.predicted_label)).filterMap id = db.map predQ := by
  induction db with
  | nil => rfl
  | cons r rs ih =>
    obtain ⟨v, hv⟩ := Option.isSome_iff_exists.mp (h r (by simp))
    simp only [List.map_cons, List.filterMap_cons, hv, id]
    rw [ih (fun x hx => h x (by simp [hx]))]
    simp [predQ, hv]

theorem getD_map_eq (g : α → β) (d : α) :
    ∀ (l : List α) (i : Nat), (l.map g).getD i (g d) = g (l.getD i d) := by
  intro l
  induction l with
  | nil => intro i; rfl
  | cons a as ih =>
    intro i
    cases i with
    | zero => rfl
    | succ j => exact ih j

theorem getD_map_of_lt (g : α → β) (d : β) (d2 : α) :
    ∀ (l : List α) (i : Nat), i < l.length →
      (l.map g).getD i d = g (l.getD i d2) := by
  intro l
  induction l with
  | nil =>
    intro i hi
    simp at hi
  | cons a as ih =>
    intro i hi
    cases i with
    | zero => rfl
    | succ j => simpa using ih j (by simpa using hi)

theorem map_getD_range (d : α) :
    ∀ l : List α, (List.range l.length).map (fun i => l.getD i d) = l := by
  intro l
  induction l with
  | nil => rfl
  | cons a as ih =>
    have h1 : (a :: as).length = as.length + 1 := rfl
    rw [h1, List.range_succ_eq_map, List.map_cons, List.map_map]
    exact congrArg (fun t => a :: t) ih

theorem npTake_intOfNat (xs : List String) (o : Nat) :
    npTake xs (Int.ofNat o) = xs.getD o "" := by
  unfold npTake
  rw [if_pos (show (0 : Int) ≤ Int.ofNat o from Int.natCast_nonneg o)]
  rfl

theorem map_map_lam (f : α → β) (g : β → γ) :
    ∀ l : List α, (l.map f).map g = l.map (fun x => g (f x)) := by
  intro l
  induction l with
  | nil => rfl
  | cons a as ih => simp_all

theorem uuid_getD (db : List Row) (o : Nat) :
    (db.map (fun r => r.uuid)).getD o "" = (db.getD o emptyRow).uuid :=
  getD_map_eq (fun r => r.uuid) emptyRow db o

theorem filterMap_id_map_some (k : α → β) :
    ∀ l : List α, (l.map (fun x => some (k x))).filterMap id = l.map k := by
  intro l
  induction l with
  | nil => rfl
  | cons a as ih => simp_all

theorem npArgsort_map_getD (k : Row → ℚ) (db : List Row) :
    (npArgsort (db.map k)).map (fun i => db.getD i emptyRow)
      = sortBy (fun a b => decide (k a ≤ k b)) db := by
  unfold npArgsort
  have hlen : (db.map k).length = db.length := by simp
  rw [hlen]
  have htr := sortBy_map (fun i => db.getD i emptyRow)
    (fun i j => decide ((db.map k).getD i 0 ≤ (db.map k).getD j 0))
    (fun a b => decide (k a ≤ k b))
    (fun i => i < db.length)
    (fun i j hi hj => by
      show decide ((db.map k).getD i 0 ≤ (db.map k).getD j 0)
          = decide (k (db.getD i emptyRow) ≤ k (db.getD j emptyRow))
      rw [getD_map_of_lt k 0 emptyRow db i hi, getD_map_of_lt k 0 emptyRow db j hj])
    (List.range db.length)
    (fun x hx => List.mem_range.mp hx)
  rw [htr, map_getD_range emptyRow db]

theorem re_order_bad_first_all_present (files : List String) (db : List Row)
    (h : ∀ r ∈ db, r.predicted_label.isSome = true) :
    re_order_images files db SortOption.predictedBadFirst
      = (sortBy (fun a b => decide (predQ a ≤ predQ b)) db).map
          (fun r => imagePath r.uuid) := by
  have hstep : re_order_images files db SortOption.predictedBadFirst
      = ((seriesArgsort (db.map (fun r => r.predicted_label))).map
          (npTake (db.map (fun r => r.uuid)))).map imagePath := rfl
  have hall : ∀ v ∈ db.map (fun r => r.predicted_label), v.isSome = true := by
    intro v hv
    obtain ⟨r, hr, rfl⟩ := List.mem_map.mp hv
    exact h r hr
  have hfm : (db.map (fun r => r.predicted_label)).filterMap id = db.map predQ :=
    filterMap_pred_all_some db h
  have hlen : (db.map (fun r => r.predicted_label)).length
      = (npArgsort ((db.map (fun r => r.predicted_label)).filterMap id)).length := by
    rw [hfm]
    unfold npArgsort
    rw [sortBy_length]
    simp
  have hscat : seriesArgsort (db.map (fun r => r.predicted_label))
      = (npArgsort (db.map predQ)).map Int.ofNat := by
    unfold seriesArgsort
    rw [scatterArgsort_all_some _ _ hall hlen, hfm]
  rw [hstep, hscat, map_map_lam Int.ofNat (npTake (db.map (fun r => r.uuid)))]
  have h2 : (npArgsort (db.map predQ)).map (fun o => npTake (db.map (fun r => r.uuid)) (Int.ofNat o))
      = (npArgsort (db.map predQ)).map (fun o => (db.getD o emptyRow).uuid) :=
    List.map_congr_left (fun o _ => by rw [npTake_intOfNat]; exact uuid_getD db o)
  rw [h2]
  have h3 : (npArgsort (db.map predQ)).map (fun o => (db.getD o emptyRow).uuid)
      = ((npArgsort (db.map predQ)).map (fun o => db.getD o emptyRow)).map
          (fun r => r.uuid) :=
    (map_map_lam (fun o => db.getD o emptyRow) (fun r => r.uuid)
      (npArgsort (db.map predQ))).symm
  rw [h3, npArgsort_map_getD predQ db]
  exact map_map_lam (fun r : Row => r.uuid) imagePath _

/-- C5 counterexample: the claimed predicted-ascending ordering is wrong
in general.  With the unscored row first (`a` unset, `b`:1/10, `c`:9/10)
the correct claimed order would be `["b", "c", "a"]` (ascending, unset
last), but the code produces `["c", "a", "b"]` — the NaN position maps to
index `-1` (the last row) and the remaining argsort indices point into
the NaN-compressed array, not the full one.  Moreover the corpus id `d`,
which has no database row, does not appear in the output at all. -/
theorem C5_counterexample_unscored_first :
    re_order_images ["a.jpg", "b.jpg", "c.jpg", "d.jpg"]
        [⟨"a", none, none, none⟩, ⟨"b", none, some (1/10), none⟩,
         ⟨"c", none, some (9/10), none⟩] SortOption.predictedBadFirst
      = ["c.jpg", "a.jpg", "b.jpg"]
    ∧ re_order_images ["a.jpg", "b.jpg", "c.jpg", "d.jpg"]
        [⟨"a", none, none, none⟩, ⟨"b", none, some (1/10), none⟩,
         ⟨"c", none, some (9/10), none⟩] SortOption.predictedBadFirst
      ≠ ["b.jpg", "c.jpg", "a.jpg"]
    ∧ "d.jpg" ∉ re_order_images ["a.jpg", "b.jpg", "c.jpg", "d.jpg"]
        [⟨"a", none, none, none⟩, ⟨"b", none, some (1/10), none⟩,
         ⟨"c", none, some (9/10), none⟩] SortOption.predictedBadFirst :=
  of_decide_eq_true (by with_unfolding_all rfl)

/-- C5 amended: the predicted-ascending option orders the database's own
rows, not the corpus ids (an id with no row never appears).  When every
row has a present `predicted_label` the output is exactly the rows stably
sorted by `predicted_label` ascending, mapped to image paths; and the
cited example `{a: 9/10, b: 1/10, c: unset}` (the unset row last) does
produce `["b", "a", "c"]`.  Rows with `predicted_label` missing get index
`-1`, which selects the store's last row instead of sorting last. -/
theorem C5_predicted_ascending :
    (∀ (files : List String) (db : List Row),
        (∀ r ∈ db, r.predicted_label.isSome = true) →
        re_order_images files db SortOption.predictedBadFirst
          = (sortBy (fun a b => decide (predQ a ≤ predQ b)) db).map
              (fun r => imagePath r.uuid))
    ∧ re_order_images ["a.jpg", "b.jpg", "c.jpg"]
        [⟨"a", none, some (9/10), none⟩, ⟨"b", none, some (1/10), none⟩,
         ⟨"c", none, none, none⟩] SortOption.predictedBadFirst
      = ["b.jpg", "a.jpg", "c.jpg"] :=
  ⟨re_order_bad_first_all_present, of_decide_eq_true (by with_unfolding_all rfl)⟩

theorem C5_predicted_ascending_witness :
    re_order_images ["a.jpg", "b.jpg"]
        [⟨"a", none, some (9/10), none⟩, ⟨"b", none, some (1/10), none⟩]
        SortOption.predictedBadFirst
      = (sortBy (fun a b => decide (predQ a ≤ predQ b))
          [⟨"a", none, some (9/10), none⟩, ⟨"b", none, some (1/10), none⟩]).map
          (fun r => imagePath r.uuid) :=
  C5_predicted_ascending.1 ["a.jpg", "b.jpg"]
    [⟨"a", none, some (9/10), none⟩, ⟨"b", none, some (1/10), none⟩]
    (of_decide_eq_true (by with_unfolding_all rfl))

theorem pandasMedian_eq_some (vals : List ℚ) (h : vals ≠ []) :
    pandasMedian vals = some ((pandasMedian vals).getD 0) := by
  unfold pandasMedian
  have hlen0 : ¬ ((sortedVals vals).length = 0) := by
    unfold sortedVals
    rw [sortBy_length]
    intro hc
    exact h (List.length_eq_zero.mp hc)
  rw [if_neg hlen0]
  by_cases hp : (sortedVals vals).length % 2 = 1
  · rw [if_pos hp]
    rfl
  · rw [if_neg hp]
    rfl

theorem re_order_middle_all_present (files : List String) (db : List Row)
    (h : ∀ r ∈ db, r.predicted_label.isSome = true) :
    re_order_images files db SortOption.middle
      = (sortBy (fun a b =>
          decide (|predQ a - medianVal db| ≤ |predQ b - medianVal db|)) db).map
          (fun r => imagePath r.uuid) := by
  by_cases hne : db = []
  · subst hne
    rfl
  · have hstep : re_order_images files db SortOption.middle
        = ((seriesArgsort (db.map (fun r =>
              match pandasMedian ((db.map (fun r2 => r2.predicted_label)).filterMap id),
                r.predicted_label with
              | some m, some v => some |v - m|
              | _, _ => none))).map
            (npTake (db.map (fun r => r.uuid)))).map imagePath := rfl
    have hfm : (db.map (fun r => r.predicted_label)).filterMap id = db.map predQ :=
      filterMap_pred_all_some db h
    have hmne : db.map predQ ≠ [] := by
      intro hc
      exact hne (List.map_eq_nil_iff.mp hc)
    have hmed : pandasMedian ((db.map (fun r2 => r2.predicted_label)).filterMap id)
        = some (medianVal db) := by
      rw [hfm, pandasMedian_eq_some (db.map predQ) hmne]
      rfl
    have hdists : db.map (fun r =>
          match pandasMedian ((db.map (fun r2 => r2.predicted_label)).filterMap id),
            r.predicted_label with
          | some m, some v => some |v - m|
          | _, _ => none)
        = db.map (fun r => some |predQ r - medianVal db|) :=
      List.map_congr_left (fun r hr => by
        obtain ⟨v, hv⟩ := Option.isSome_iff_exists.mp (h r hr)
        rw [hmed, hv]
        simp [predQ, hv])
    rw [hstep, hdists]
    have hall2 : ∀ w ∈ db.map (fun r => some |predQ r - medianVal db|),
        w.isSome = true := by
      intro w hw
      obtain ⟨r, hr, rfl⟩ := List.mem_map.mp hw
      rfl
    have hfm2 : (db.map (fun r => some |predQ r - medianVal db|)).filterMap id
        = db.map (fun r => |predQ r - medianVal db|) :=
      filterMap_id_map_some (fun r => |predQ r - medianVal db|) db
    have hlen2 : (db.map (fun r => some |predQ r - medianVal db|)).length
        = (npArgsort ((db.map (fun r =>
            some |predQ r - medianVal db|)).filterMap id)).length := by
      rw [hfm2]
      unfold npArgsort
      rw [sortBy_length]
      simp
    have hscat2 : seriesArgsort (db.map (fun r => some |predQ r - medianVal db|))
        = (npArgsort (db.map (fun r => |predQ r - medianVal db|))).map Int.ofNat := by
      unfold seriesArgsort
      rw [scatterArgsort_all_some _ _ hall2 hlen2, hfm2]
    rw [hscat2, map_map_lam Int.ofNat (npTake (db.map (fun r => r.uuid)))]
    have h2 : (npArgsort (db.map (fun r => |predQ r - medianVal db|))).map
          (fun o => npTake (db.map (fun r => r.uuid)) (Int.ofNat o))
        = (npArgsort (db.map (fun r => |predQ r - medianVal db|))).map
          (fun o => (db.getD o emptyRow).uuid) :=
      List.map_congr_left (fun o _ => by rw [npTake_intOfNat]; exact uuid_getD db o)
    rw [h2]
    have h3 : (npArgsort (db.map (fun r => |predQ r - medianVal db|))).map
          (fun o => (db.getD o emptyRow).uuid)
        = ((npArgsort (db.map (fun r => |predQ r - medianVal db|))).map
            (fun o => db.getD o emptyRow)).map (fun r => r.uuid) :=
      (map_map_lam (fun o => db.getD o emptyRow) (fun r => r.uuid)
        (npArgsort (db.map (fun r => |predQ r - medianVal db|)))).symm
    rw [h3, npArgsort_map_getD (fun r => |predQ r - medianVal db|) db]
    exact map_map_lam (fun r : Row => r.uuid) imagePath _

/-- C6 counterexample: ties are not broken by identifier order.  With the
same three predicted labels `{a: 1/10, b: 1/2, c: 9/10}` (median 1/2) but
the rows stored in order `c, a, b`, the code yields `["b", "c", "a"]` —
the tie between `a` and `c` (both at distance 2/5 from the median) is
kept in row order, so `c` comes before `a` although identifier order
would put `a` first. -/
theorem C6_counterexample_tie_row_order :
    re_order_images ["a.jpg", "b.jpg", "c.jpg"]
        [⟨"c", none, some (9/10), none⟩, ⟨"a", none, some (1/10), none⟩,
         ⟨"b", none, some (1/2), none⟩] SortOption.middle
      = ["b.jpg", "c.jpg", "a.jpg"]
    ∧ re_order_images ["a.jpg", "b.jpg", "c.jpg"]
        [⟨"c", none, some (9/10), none⟩, ⟨"a", none, some (1/10), none⟩,
         ⟨"b", none, some (1/2), none⟩] SortOption.middle
      ≠ ["b.jpg", "a.jpg", "c.jpg"] :=
  of_decide_eq_true (by with_unfolding_all rfl)

/-- C6 amended: the middle option computes the median of the present
`predicted_label` values, and when every row has a present
`predicted_label` the output is exactly the database rows stably sorted
ascending by `abs(predicted_label - median)` — ties kept in row order
(argsort stability), not identifier order — mapped to image paths.  The
cited example `{a: 1/10, b: 1/2, c: 9/10}` stored in row order `a, b, c`
does yield `["b", "a", "c"]`.  Rows without a `predicted_label` get index
`-1` (the store's last row) rather than sorting last. -/
theorem C6_median_distance :
    (∀ (files : List String) (db : List Row),
        (∀ r ∈ db, r.predicted_label.isSome = true) →
        re_order_images files db SortOption.middle
          = (sortBy (fun a b =>
              decide (|predQ a - medianVal db| ≤ |predQ b - medianVal db|)) db).map
              (fun r => imagePath r.uuid))
    ∧ re_order_images ["a.jpg", "b.jpg", "c.jpg"]
        [⟨"a", none, some (1/10), none⟩, ⟨"b", none, some (1/2), none⟩,
         ⟨"c", none, some (9/10), none⟩] SortOption.middle
      = ["b.jpg", "a.jpg", "c.jpg"] :=
  ⟨re_order_middle_all_present, of_decide_eq_true (by with_unfolding_all rfl)⟩

theorem C6_median_distance_witness :
    re_order_images ["a.jpg", "b.jpg", "c.jpg"]
        [⟨"a", none, some (1/10), none⟩, ⟨"b", none, some (1/2), none⟩,
         ⟨"c", none, some (9/10), none⟩] SortOption.middle
      = (sortBy (fun a b =>
          decide (|predQ a - medianVal [⟨"a", none, some (1/10), none⟩,
              ⟨"b", none, some (1/2), none⟩, ⟨"c", none, some (9/10), none⟩]|
            ≤ |predQ b - medianVal [⟨"a", none, some (1/10), none⟩,
              ⟨"b", none, some (1/2), none⟩, ⟨"c", none, some (9/10), none⟩]|))
          [⟨"a", none, some (1/10), none⟩, ⟨"b", none, some (1/2), none⟩,
           ⟨"c", none, some (9/10), none⟩]).map
          (fun r => imagePath r.uuid) :=
  C6_median_distance.1 ["a.jpg", "b.jpg", "c.jpg"]
    [⟨"a", none, some (1/10), none⟩, ⟨"b", none, some (1/2), none⟩,
     ⟨"c", none, some (9/10), none⟩]
    (of_decide_eq_true (by with_unfolding_all rfl))

theorem frameStep_rfl (db : List Row) : FrameStep db db :=
  fun _ r h => ⟨r, h, rfl, fun _ => rfl⟩

theorem frameStep_trans (d1 d2 d3 : List Row)
    (h12 : FrameStep d1 d2) (h23 : FrameStep d2 d3) : FrameStep d1 d3 := by
  intro i r hr
  obtain ⟨r2, hr2, hl2, hp2⟩ := h12 i r hr
  obtain ⟨r3, hr3, hl3, hp3⟩ := h23 i r2 hr2
  refine ⟨r3, hr3, hl3.trans hl2, fun hs => ?_⟩
  rw [hp3 (by rw [hl2]; exact hs), hp2 hs]

theorem frameStep_append (db extra : List Row) : FrameStep db (db ++ extra) := by
  intro i r hr
  have hi : i < db.length := by
    by_contra hge
    rw [List.get?_eq_none.mpr (by omega)] at hr
    cases hr
  refine ⟨r, ?_, rfl, fun _ => rfl⟩
  rw [List.get?_append hi]
  exact hr

theorem updateFirstRow_frame (u : String) (g : Row → Row)
    (hg : ∀ r, (g r).label = r.label) :
    ∀ db db2, updateFirstRow u g db = some db2 →
      (∀ r, firstRow u db = some r → r.label = none) →
      FrameStep db db2 := by
  intro db
  induction db with
  | nil =>
    intro db2 h _
    cases h
  | cons r rs ih =>
    intro db2 hupd hu
    by_cases hm : (r.uuid == u) = true
    · have hd : db2 = g r :: rs := by
        simp only [updateFirstRow, hm, if_true, Option.some.injEq] at hupd
        exact hupd.symm
      subst hd
      have hfr : firstRow u (r :: rs) = some r := by
        simp [firstRow, List.find?, hm]
      have hrnone : r.label = none := hu r hfr
      intro i rr hget
      cases i with
      | zero =>
        obtain rfl : r = rr := by
          simpa using hget
        refine ⟨g r, rfl, hg r, fun hs => ?_⟩
        rw [hrnone] at hs
        cases hs
      | succ j => exact ⟨rr, hget, rfl, fun _ => rfl⟩
    · cases hu2 : updateFirstRow u g rs with
      | none =>
        have hcontra : updateFirstRow u g (r :: rs) = none := by
          simp [updateFirstRow, hm, hu2]
        rw [hcontra] at hupd
        cases hupd
      | some rs2 =>
        have hd : db2 = r :: rs2 := by
          simp only [updateFirstRow, hm, Bool.false_eq_true, if_false, hu2,
            Option.map_some', Option.some.injEq] at hupd
          exact hupd.symm
        subst hd
        have hfr : firstRow u (r :: rs) = firstRow u rs := by
          simp [firstRow, List.find?, hm]
        have hframe := ih rs2 hu2 (fun rr hrr => hu rr (by rw [hfr]; exact hrr))
        intro i rr hget
        cases i with
        | zero =>
          obtain rfl : r = rr := by simpa using hget
          exact ⟨r, rfl, rfl, fun _ => rfl⟩
        | succ j => exact hframe j rr hget

theorem firstRow_append_single (w : String) (r0 : Row) :
    ∀ db : List Row, firstRow w (db ++ [r0])
      = match firstRow w db with
        | some r => some r
        | none => if r0.uuid == w then some r0 else none := by
  intro db
  induction db with
  | nil =>
    simp only [List.nil_append, firstRow, List.find?]
    by_cases h0 : (r0.uuid == w) = true
    · simp [h0]
    · simp [h0]
  | cons r rs ih =>
    by_cases hm : (r.uuid == w) = true
    · simp [firstRow, List.find?, hm]
    · simp only [firstRow, List.cons_append, List.find?, hm] at *
      simpa using ih

theorem firstUnlabeled_append (w : String) (db : List Row) (r0 : Row)
    (h0 : r0.label = none) (hw : FirstUnlabeled w db) :
    FirstUnlabeled w (db ++ [r0]) := by
  intro r hr
  rw [firstRow_append_single w r0 db] at hr
  cases hfind : firstRow w db with
  | some rr =>
    rw [hfind] at hr
    obtain rfl : rr = r := by simpa using hr
    exact hw _ hfind
  | none =>
    rw [hfind] at hr
    by_cases hm : (r0.uuid == w) = true
    · rw [if_pos hm] at hr
      obtain rfl : r0 = r := by simpa using hr
      exact h0
    · rw [if_neg hm] at hr
      cases hr

theorem updateFirstRow_firstUnlabeled (u : String) (g : Row → Row)
    (hg : ∀ r, (g r).label = r.label) (hgu : ∀ r, (g r).uuid = r.uuid) :
    ∀ db db2, updateFirstRow u g db = some db2 →
      ∀ w, FirstUnlabeled w db → FirstUnlabeled w db2 := by
  intro db
  induction db with
  | nil =>
    intro db2 h
    cases h
  | cons r rs ih =>
    intro db2 hupd w hw
    by_cases hm : (r.uuid == u) = true
    · have hd : db2 = g r :: rs := by
        simp only [updateFirstRow, hm, if_true, Option.some.injEq] at hupd
        exact hupd.symm
      subst hd
      intro rr hrr
      by_cases hw2 : ((g r).uuid == w) = true
      · have hw3 : (r.uuid == w) = true := by
          rw [← hgu r]
          exact hw2
        have hfr : firstRow w (r :: rs) = some r := by
          simp [firstRow, List.find?, hw3]
        obtain rfl : g r = rr := by
          simpa [firstRow, List.find?, hw2] using hrr
        rw [hg r]
        exact hw r hfr
      · have hw3 : ¬ ((r.uuid == w) = true) := by
          rw [← hgu r]
          exact hw2
        have hfr : firstRow w (r :: rs) = firstRow w rs := by
          simp [firstRow, List.find?, hw3]
        have hrr2 : firstRow w rs = some rr := by
          simpa [firstRow, List.find?, hw2] using hrr
        exact hw rr (by rw [hfr]; exact hrr2)
    · cases hu2 : updateFirstRow u g rs with
      | none =>
        have hcontra : updateFirstRow u g (r :: rs) = none := by
          simp [updateFirstRow, hm, hu2]
        rw [hcontra] at hupd
        cases hupd
      | some rs2 =>
        have hd : db2 = r :: rs2 := by
          simp only [updateFirstRow, hm, Bool.false_eq_true, if_false, hu2,
            Option.map_some', Option.some.injEq] at hupd
          exact hupd.symm
        subst hd
        intro rr hrr
        by_cases hw2 : (r.uuid == w) = true
        · have hfr : firstRow w (r :: rs) = some r := by
            simp [firstRow, List.find?, hw2]
          obtain rfl : r = rr := by
            simpa [firstRow, List.find?, hw2] using hrr
          exact hw r hfr
        · have hfr : firstRow w (r :: rs) = firstRow w rs := by
            simp [firstRow, List.find?, hw2]
          have hrr2 : firstRow w rs2 = some rr := by
            simpa [firstRow, List.find?, hw2] using hrr
          exact ih rs2 hu2 w (fun x hx => hw x (by rw [hfr]; exact hx)) rr hrr2

theorem predict_frame (score : String → ℚ) (now : ℤ) :
    ∀ (uuids : List String) (re : Bool) (db db2 : List Row),
      predict score uuids re now db = some db2 →
      (∀ u ∈ uuids, FirstUnlabeled u db) →
      FrameStep db db2 := by
  intro uuids
  induction uuids with
  | nil =>
    intro re db db2 h _
    obtain rfl : db = db2 := by simpa [predict] using h
    exact frameStep_rfl db
  | cons u rest ih =>
    intro re db db2 h hb
    cases re with
    | true =>
      simp only [predict, if_true] at h
      have hstep : FrameStep db
          (db ++ [⟨u, none, some (score u), some now⟩]) :=
        frameStep_append db _
      have hb2 : ∀ w ∈ rest, FirstUnlabeled w
          (db ++ [⟨u, none, some (score u), some now⟩]) :=
        fun w hwm => firstUnlabeled_append w db _ rfl (hb w (by simp [hwm]))
      exact frameStep_trans _ _ _ hstep (ih true _ db2 h hb2)
    | false =>
      simp only [predict, Bool.false_eq_true, if_false] at h
      cases hupd : updateFirstRow u
          (fun r => ⟨r.uuid, r.label, some (score u), some now⟩) db with
      | none =>
        rw [hupd] at h
        cases h
      | some dbm =>
        rw [hupd] at h
        have hf1 : FrameStep db dbm :=
          updateFirstRow_frame u
            (fun r => ⟨r.uuid, r.label, some (score u), some now⟩)
            (fun r => rfl) db dbm hupd
            (fun r hr => hb u (by simp) r hr)
        have hb2 : ∀ w ∈ rest, FirstUnlabeled w dbm :=
          fun w hwm => updateFirstRow_firstUnlabeled u
            (fun r => ⟨r.uuid, r.label, some (score u), some now⟩)
            (fun r => rfl) (fun r => rfl) db dbm hupd w (hb w (by simp [hwm]))
        exact frameStep_trans _ _ _ hf1 (ih false dbm db2 h hb2)

theorem predictLoop_frame (score : String → ℚ) (batchSize : Nat) (now : ℤ) :
    ∀ (files batch : List String) (db db2 : List Row),
      predictLoop score batchSize now files batch db = some db2 →
      (∀ u ∈ batch, FirstUnlabeled u db) →
      FrameStep db db2 := by
  intro files
  induction files with
  | nil =>
    intro batch db db2 h _
    obtain rfl : db = db2 := by simpa [predictLoop] using h
    exact frameStep_rfl db
  | cons u rest ih =>
    intro batch db db2 h hb
    simp only [predictLoop] at h
    by_cases hlab : rowIsLabeled (firstRow u db) = true
    · rw [if_pos hlab] at h
      exact ih batch db db2 h hb
    · rw [if_neg hlab] at h
      have hu : FirstUnlabeled u db := by
        intro r hr
        unfold rowIsLabeled at hlab
        rw [hr] at hlab
        exact Option.not_isSome_iff_eq_none.mp (by simpa using hlab)
      have hb2 : ∀ w ∈ batch ++ [u], FirstUnlabeled w db := by
        intro w hw
        rcases List.mem_append.mp hw with h1 | h1
        · exact hb w h1
        · obtain rfl : w = u := by simpa using h1
          exact hu
      by_cases hflush : ((batch ++ [u]).length == batchSize) = true
      · rw [if_pos hflush] at h
        cases hp : predict score (batch ++ [u]) (firstRow u db).isNone now db with
        | none =>
          rw [hp] at h
          cases h
        | some dbm =>
          rw [hp] at h
          have hf1 : FrameStep db dbm :=
            predict_frame score now (batch ++ [u]) _ db dbm hp hb2
          exact frameStep_trans _ _ _ hf1
            (ih [] dbm db2 h (fun w hw => absurd hw (List.not_mem_nil w)))
      · rw [if_neg hflush] at h
        exact ih (batch ++ [u]) db db2 h hb2

/-- C8: the prediction pass never touches human labels.  For any run of
the batch loop of `05_predict_labels.py` that returns a store, every row
of the original store is still at its position with the same `label`
cell, and every row whose `label` is present also keeps its
`predicted_label` cell unchanged — only rows without a human label (and
freshly appended rows) receive the new predicted score. -/
theorem C8_predictions_frame (score : String → ℚ) (batchSize : Nat) (now : ℤ)
    (files : List String) (db db2 : List Row)
    (h : predictLoop score batchSize now files [] db = some db2) :
    FrameStep db db2 :=
  predictLoop_frame score batchSize now files [] db db2 h
    (fun u hu => absurd hu (List.not_mem_nil u))

theorem C8_predictions_frame_witness :
    ∃ r2, ([⟨"L", some (1/2), some (1/2), some 0⟩,
        ⟨"a", none, some (7/10), some 9⟩] : List Row).get? 0 = some r2
      ∧ r2.label = (⟨"L", some (1/2), some (1/2), some 0⟩ : Row).label
      ∧ ((⟨"L", some (1/2), some (1/2), some 0⟩ : Row).label.isSome = true →
          r2.predicted_label
            = (⟨"L", some (1/2), some (1/2), some 0⟩ : Row).predicted_label) :=
  C8_predictions_frame (fun _ => 7/10) 1 9 ["a"]
    [⟨"L", some (1/2), some (1/2), some 0⟩, ⟨"a", none, some (3/10), some 5⟩]
    [⟨"L", some (1/2), some (1/2), some 0⟩, ⟨"a", none, some (7/10), some 9⟩]
    (of_decide_eq_true (by with_unfolding_all rfl))
    0 ⟨"L", some (1/2), some (1/2), some 0⟩ rfl
